import Mathlib

/-!
Shallow embedding of the mompS typing pipeline core of `el_gato.py`:
the dual-VCF reconciler (`vcf_to_fasta`), the SAM read partitioner
(`filter_sam_file`), the assembly-mode allele identification decision logic
(`call_momps_pcr`), and the ST profile lookup (`get_st`).

Conventions of the embedding:
* Python strings are modelled as `List Char` (or `String` where only whole
  values are moved around); Python list slices `s[a:b]` with nonnegative
  bounds are `(s.drop a).take (b - a)`, which matches Python's clipping
  semantics.
* Numeric allele-balance values are modelled exactly: the decimal literal
  the variant caller emits is kept as an exact scaled decimal (`Dec`),
  whose comparisons are proved to agree with the rational ones.
* Fallible code (Python exceptions: `AttributeError` from a failed
  `re.search(...).group()`, `ValueError` from a failed `float(...)`) is
  modelled with `Option`: `none` means the run aborts with an error.
-/

/-- The reference locus descriptor (the fields of `class Ref` that the
reconciler and the read partitioner read). -/
structure RefLocus where
  seq : List Char
  allele_start : Nat
  allele_stop : Nat
  flank_start : Nat
  flank_stop : Nat

/-- The concrete mompS reference constants of `class Ref`. -/
def Ref : RefLocus :=
  { seq := ("GTTATCAATAAAATGGAAACTCAATAATAAACAAGTGGAGACAAGGCATGTTTAGTTTGAAAAAAACAGCAGTGGCAGTACTCGCCTTAGGAAGCGGTGCAGTGTTTGCTGGAACCATGGGACCAGTTTGCACCCCAGGTAATGTAACTGTTCCTTGCGAAAGAACTGCATGGGATATTGGTATCACCGCACTATATTTGCAACCAATCTATGATGCTGATTGGGGCTACAATGGTTTCACCCAAGTTGGTGGCTGGCAGCATTGGCATGATGTTGACCATGAGTGGGATTGGGGCTTCAAATTAGAAGGTTCTTATCACTTCAATACTGGTAATGACATCAATGTGAACTGGTATCATTTTGATAATGACAGTGATCACTGGGCTGATTTTGCTAACTGGCACAACTACAACAACAAGTGGGATGCTGTTAATGCTGAATTAGGTCAATTCGTAGATTTCAGCGCTAACAAGAAAATGCGTTTCCACGGCGGTGTTCAATACGCTCGCATTGAAGCTGATGTGAACCGTTATTTCAATAACTTTGCCTTTAACGGGTTCAACTCTAAGTTCAATGGCTTTGGTCCTCGCACTGGTTTAGACATGAACTATGTATTTGGCAATGGCTTTGGTGTTTATGCTAAAGGCGCTGCTGCTATTCTGGTTGGTACCAGCGATTTCTACGATGGAATCAACTTCATTACTGGTTCTAAAAATGCTATCGTTCCTGAGTTGGAAGCTAAGCTTGGTGCTGATTACACTTACGCAATGGCTCAAGGCGATTTGACTTTAGACGTTGGTTACATGTGGTTTAACTACTTCAACGCTATGCACAATACTGGCGTATTTAATGGATTTGAAACTGATTTCGCAGCTTCTGGTCCTTACATTGGCTTGAAGTATGTTGGTAATGTGTAATTTGTTAAGTTGATAAGAAATTTCAGCAATACTGTTGACTTTATAGAAGTCCGGCTGGATAATTTATCCA").toList
  , allele_start := 367
  , allele_stop := 718
  , flank_start := 15
  , flank_stop := 972 }

/-- Python list slice `l[a:b]` for nonnegative bounds. -/
def pySlice (l : List Char) (a b : Nat) : List Char := (l.drop a).take (b - a)

/-- One row of a variant file, pre-split into the fields `vcf_to_fasta`
reads: `pos` (1-based, the parsed `int(pos)`), the `ref` and `alt` allele
strings, and the raw `info` field (kept raw because the allele balance is
scraped out of it by a regular expression). -/
structure VcfRow where
  pos : Nat
  ref : List Char
  alt : List Char
  info : List Char
deriving DecidableEq

/-- Character class `[0-9.,]` of the allele-balance regular expression. -/
def isAbChar (c : Char) : Bool := c.isDigit || c = '.' || c = ','

/-- Attempt to match the regular expression `AB=[0-9.,]+;` at the head of
the list, returning the text between `AB=` and `;` (what the source slices
out with `group()[3:-1]`). -/
def abMatchAt : List Char → Option (List Char)
  | 'A' :: 'B' :: '=' :: rest =>
    let run := rest.takeWhile isAbChar
    if run.length ≠ 0 ∧ (rest.drop run.length).headD ' ' = ';' then some run
    else none
  | _ => none

/-- `re.search("AB=[0-9.,]+;", info)` followed by `group()[3:-1]`: scan
left to right for the first position where the pattern matches. -/
def abSearch : List Char → Option (List Char)
  | [] => none
  | c :: rest =>
    match abMatchAt (c :: rest) with
    | some r => some r
    | none => abSearch rest

/-- Value of a string of decimal digits. -/
def digitsToNat (cs : List Char) : Nat :=
  cs.foldl (fun a c => 10 * a + (c.toNat - 48)) 0

/-- An exact nonnegative decimal number `m / 10 ^ k`, the value of an
allele-balance literal. Kept unnormalised; `Dec.isZero` and `Dec.gt`
below are the value-level (rational) tests, as the bridge lemmas
`Dec.isZero_iff_toRat` and `Dec.gt_iff_toRat` prove. -/
structure Dec where
  m : Nat
  k : Nat
deriving DecidableEq

/-- The rational value of a `Dec`. -/
def Dec.toRat (d : Dec) : ℚ := (d.m : ℚ) / (10 : ℚ) ^ d.k

/-- Zero test on the exact decimal value (`float(ab) == 0` in the source). -/
def Dec.isZero (d : Dec) : Bool := d.m = 0

/-- Strict order on exact decimal values (`filtered_ab > float(ab)` in the
source), by cross multiplication. -/
def Dec.gt (a b : Dec) : Bool := b.m * 10 ^ a.k < a.m * 10 ^ b.k

theorem Dec.isZero_iff_toRat (d : Dec) : d.isZero = true ↔ d.toRat = 0 := by
  have h10 : ((10 : ℚ)) ^ d.k ≠ 0 := by positivity
  simp [Dec.isZero, Dec.toRat, div_eq_zero_iff, h10]

theorem Dec.gt_iff_toRat (a b : Dec) : a.gt b = true ↔ b.toRat < a.toRat := by
  rw [Dec.gt, Dec.toRat, Dec.toRat,
    div_lt_div_iff₀ (by positivity) (by positivity), decide_eq_true_eq]
  exact_mod_cast Iff.rfl

/-- Python `float(s)` restricted to the strings the AB regular expression
can produce (digits, dots, commas): a comma or a second dot or a digitless
string raises `ValueError` (`none`); otherwise the exact decimal value is
returned (`"ip.fp"` has value `digitsToNat (ip ++ fp) / 10 ^ fp.length`). -/
def pyFloat? (cs : List Char) : Option Dec :=
  if cs.all Char.isDigit ∧ cs ≠ [] then some ⟨digitsToNat cs, 0⟩
  else
    let ip := cs.takeWhile Char.isDigit
    match cs.drop ip.length with
    | '.' :: fp =>
      if fp.all Char.isDigit ∧ (ip ≠ [] ∨ fp ≠ [])
      then some ⟨digitsToNat (ip ++ fp), fp.length⟩
      else none
    | _ => none

/-- Parse one filtered-set row exactly as the first loop of `vcf_to_fasta`
does: `ab = float(re.search("AB=[0-9.,]+;", info).group()[3:-1])`; a failed
regular-expression search or a failed `float` conversion aborts the run. -/
def parseFiltRow (r : VcfRow) : Option (Nat × List Char × Dec) := do
  let abs ← abSearch r.info
  let ab ← pyFloat? abs
  pure (r.pos, r.alt, ab)

/-- Build the `filtered_call` dictionary contents, row by row. -/
def buildFiltered : List VcfRow → Option (List (Nat × List Char × Dec))
  | [] => some []
  | r :: rs => do
    let e ← parseFiltRow r
    let es ← buildFiltered rs
    pure (e :: es)

/-- Dictionary lookup `filtered_call[pos]` / `filtered_call[f"{pos}_ab"]`:
a later assignment to the same position overwrites an earlier one. -/
def filteredLookup (fl : List (Nat × List Char × Dec)) (p : Nat) : Option (List Char × Dec) :=
  match fl with
  | [] => none
  | (q, a, b) :: rest =>
    match filteredLookup rest p with
    | some v => some v
    | none => if q = p then some (a, b) else none

/-- The per-position tie-break of `vcf_to_fasta` (lines 431-465 of the
source): given the full set's raw AB reading `ab` at an allele-region
position, choose which base string is emitted, or fail (`none`) when a
single-valued AB reading does not convert to a number. -/
def resolveBase (fl : List (Nat × List Char × Dec)) (pos : Nat)
    (ab refA alt : List Char) : Option (List Char) :=
  if ab.any (fun c => c = ',') then
    match filteredLookup fl pos with
    | some (falt, _) => some falt
    | none => some refA
  else
    match pyFloat? ab with
    | none => none
    | some q =>
      if ¬ q.isZero then
        match filteredLookup fl pos with
        | none => some refA
        | some (falt, fab) => if fab.isZero ∨ fab.gt q then some alt else some refA
      else some alt

/-- Every branch of `vcf_to_fasta` that touches a position emits
`Ref.seq[start_anchor:(pos - 1)]` followed by the chosen base string and
moves the anchor to `pos - 1 + len(ref)`. -/
def emitAt (L : RefLocus) (s : List Char) (anchor pos : Nat)
    (refA x : List Char) : List Char × Nat :=
  (s ++ pySlice L.seq anchor (pos - 1) ++ x, pos - 1 + refA.length)

/-- Processing of one full-set row by `vcf_to_fasta`: rows outside
`[allele_start, allele_stop]` are skipped without even parsing their AB
field; inside the region the AB reading is scraped, the tie-break decides
the emitted base, and a parse failure aborts the run. -/
def vcfStep (L : RefLocus) (fl : List (Nat × List Char × Dec))
    (st : List Char × Nat) (r : VcfRow) : Option (List Char × Nat) :=
  let (s, anchor) := st
  if L.allele_start ≤ r.pos ∧ r.pos ≤ L.allele_stop then
    match abSearch r.info with
    | none => none
    | some ab =>
      match resolveBase fl r.pos ab r.ref r.alt with
      | none => none
      | some x => some (emitAt L s anchor r.pos r.ref x)
  else some (s, anchor)

/-- The dual-VCF reconciler `vcf_to_fasta`: read the filtered set into the
`filtered_call` dictionary, walk the full set's rows in file order
threading `(this_seq, start_anchor)`, then append the reference tail
`Ref.seq[start_anchor:]`. -/
def vcf_to_fasta (L : RefLocus) (full filtered : List VcfRow) : Option (List Char) := do
  let fl ← buildFiltered filtered
  let st ← full.foldlM (vcfStep L fl) ([], 0)
  pure (st.1 ++ L.seq.drop st.2)

/-- A small locus used to instantiate hypotheses of the theorems below on
concrete inputs. -/
def testL : RefLocus :=
  { seq := "ACGTACGT".toList
  , allele_start := 2
  , allele_stop := 5
  , flank_start := 1
  , flank_stop := 8 }

lemma vcfStep_in (L : RefLocus) (fl : List (Nat × List Char × Dec))
    (s : List Char) (a : Nat) (r : VcfRow) (ab x : List Char)
    (hreg : L.allele_start ≤ r.pos ∧ r.pos ≤ L.allele_stop)
    (hab : abSearch r.info = some ab)
    (hres : resolveBase fl r.pos ab r.ref r.alt = some x) :
    vcfStep L fl (s, a) r = some (emitAt L s a r.pos r.ref x) := by
  simp [vcfStep, hreg, hab, hres]

lemma resolveBase_comma_some (fl : List (Nat × List Char × Dec)) (pos : Nat)
    (ab refA alt falt : List Char) (fab : Dec)
    (hc : ab.any (fun c => c = ',') = true)
    (hf : filteredLookup fl pos = some (falt, fab)) :
    resolveBase fl pos ab refA alt = some falt := by
  simp [resolveBase, hc, hf]

lemma resolveBase_comma_none (fl : List (Nat × List Char × Dec)) (pos : Nat)
    (ab refA alt : List Char)
    (hc : ab.any (fun c => c = ',') = true)
    (hf : filteredLookup fl pos = none) :
    resolveBase fl pos ab refA alt = some refA := by
  simp [resolveBase, hc, hf]

lemma resolveBase_hom (fl : List (Nat × List Char × Dec)) (pos : Nat)
    (ab refA alt : List Char) (q : Dec)
    (hc : ab.any (fun c => c = ',') = false)
    (hq : pyFloat? ab = some q) (hz : q.isZero = true) :
    resolveBase fl pos ab refA alt = some alt := by
  simp [resolveBase, hc, hq, hz]

lemma resolveBase_het_none (fl : List (Nat × List Char × Dec)) (pos : Nat)
    (ab refA alt : List Char) (q : Dec)
    (hc : ab.any (fun c => c = ',') = false)
    (hq : pyFloat? ab = some q) (hz : q.isZero = false)
    (hf : filteredLookup fl pos = none) :
    resolveBase fl pos ab refA alt = some refA := by
  simp [resolveBase, hc, hq, hz, hf]

lemma resolveBase_het_strong (fl : List (Nat × List Char × Dec)) (pos : Nat)
    (ab refA alt falt : List Char) (q fab : Dec)
    (hc : ab.any (fun c => c = ',') = false)
    (hq : pyFloat? ab = some q) (hz : q.isZero = false)
    (hf : filteredLookup fl pos = some (falt, fab))
    (hw : fab.isZero = true ∨ fab.gt q = true) :
    resolveBase fl pos ab refA alt = some alt := by
  rcases hw with hw | hw <;> simp [resolveBase, hc, hq, hz, hf, hw]

lemma resolveBase_het_weak (fl : List (Nat × List Char × Dec)) (pos : Nat)
    (ab refA alt falt : List Char) (q fab : Dec)
    (hc : ab.any (fun c => c = ',') = false)
    (hq : pyFloat? ab = some q) (hz : q.isZero = false)
    (hf : filteredLookup fl pos = some (falt, fab))
    (h1 : fab.isZero = false) (h2 : fab.gt q = false) :
    resolveBase fl pos ab refA alt = some refA := by
  simp [resolveBase, hc, hq, hz, hf, h1, h2]

/-- Claim C9: reconciling two empty variant-call sets yields exactly the
reference sequence, unchanged. -/
theorem claim_C9 (L : RefLocus) : vcf_to_fasta L [] [] = some L.seq := rfl

/-- Claim C3: a full-set variant call at a position inside
`[allele_start, allele_stop]` whose allele-balance reading is exactly "0"
makes the reconciler emit the alternate allele at that position (preceded
by the pending reference span), regardless of the filtered set's content. -/
theorem claim_C3 (L : RefLocus) (fl : List (Nat × List Char × Dec))
    (s : List Char) (a : Nat) (r : VcfRow)
    (hreg : L.allele_start ≤ r.pos ∧ r.pos ≤ L.allele_stop)
    (hab : abSearch r.info = some ['0']) :
    vcfStep L fl (s, a) r =
      some (s ++ pySlice L.seq a (r.pos - 1) ++ r.alt, r.pos - 1 + r.ref.length) := by
  have hres : resolveBase fl r.pos ['0'] r.ref r.alt = some r.alt :=
    resolveBase_hom fl r.pos ['0'] r.ref r.alt ⟨0, 0⟩ rfl rfl rfl
  exact vcfStep_in L fl s a r ['0'] r.alt hreg hab hres

/-- Witness for C3: at position 3 of the test locus with full reading
`AB=0;` and a conflicting filtered call present, the alternate is emitted. -/
theorem claim_C3_witness :
    (testL.allele_start ≤ 3 ∧ 3 ≤ testL.allele_stop)
    ∧ abSearch ("AB=0;".toList) = some ['0']
    ∧ vcfStep testL [(3, ("C".toList, ⟨5, 1⟩))] ("X".toList, 1)
        ⟨3, "G".toList, "T".toList, "AB=0;".toList⟩ =
      some ("X".toList ++ pySlice testL.seq 1 2 ++ "T".toList, 2 + 1) :=
  ⟨by decide, by decide,
    claim_C3 testL [(3, ("C".toList, ⟨5, 1⟩))] ("X".toList) 1
      ⟨3, "G".toList, "T".toList, "AB=0;".toList⟩ (by decide) (by decide)⟩

/-- Claim C2: a heterozygous full-set call (multi-valued or numerically
non-zero AB) inside the allele region, at a position where the filtered
set also has a call, is resolved thus: if the full reading is multi-valued
the filtered set's alternate is emitted; otherwise if the filtered AB is
zero or exceeds the full AB the full set's alternate is emitted; otherwise
the reference allele is emitted. -/
theorem claim_C2 (L : RefLocus) (fl : List (Nat × List Char × Dec))
    (s : List Char) (a : Nat) (r : VcfRow) (ab falt : List Char) (fab : Dec)
    (hreg : L.allele_start ≤ r.pos ∧ r.pos ≤ L.allele_stop)
    (hab : abSearch r.info = some ab)
    (hf : filteredLookup fl r.pos = some (falt, fab)) :
    (ab.any (fun c => c = ',') = true →
      vcfStep L fl (s, a) r = some (emitAt L s a r.pos r.ref falt))
    ∧ (∀ q : Dec, ab.any (fun c => c = ',') = false → pyFloat? ab = some q →
        q.isZero = false →
        ((fab.isZero = true ∨ fab.gt q = true →
          vcfStep L fl (s, a) r = some (emitAt L s a r.pos r.ref r.alt))
        ∧ (fab.isZero = false → fab.gt q = false →
          vcfStep L fl (s, a) r = some (emitAt L s a r.pos r.ref r.ref)))) := by
  refine ⟨fun hc => ?_, fun q hc hq hz => ⟨fun hw => ?_, fun h1 h2 => ?_⟩⟩
  · exact vcfStep_in L fl s a r ab falt hreg hab
      (resolveBase_comma_some fl r.pos ab r.ref r.alt falt fab hc hf)
  · exact vcfStep_in L fl s a r ab r.alt hreg hab
      (resolveBase_het_strong fl r.pos ab r.ref r.alt falt q fab hc hq hz hf hw)
  · exact vcfStep_in L fl s a r ab r.ref hreg hab
      (resolveBase_het_weak fl r.pos ab r.ref r.alt falt q fab hc hq hz hf h1 h2)

/-- Witness for C2: full reading `AB=0.5;` (so q = 0.5), filtered call at
the same position with AB 0: the full set's alternate is emitted. -/
theorem claim_C2_witness :
    abSearch ("AB=0.5;".toList) = some ("0.5".toList)
    ∧ pyFloat? ("0.5".toList) = some ⟨5, 1⟩
    ∧ filteredLookup [(3, ("C".toList, ⟨0, 0⟩))] 3 = some ("C".toList, ⟨0, 0⟩)
    ∧ vcfStep testL [(3, ("C".toList, ⟨0, 0⟩))] ([], 0)
        ⟨3, "G".toList, "T".toList, "AB=0.5;".toList⟩ =
      some (emitAt testL [] 0 3 ("G".toList) ("T".toList)) :=
  ⟨by decide, by decide, by decide,
    ((claim_C2 testL [(3, ("C".toList, ⟨0, 0⟩))] [] 0
        ⟨3, "G".toList, "T".toList, "AB=0.5;".toList⟩ ("0.5".toList)
        ("C".toList) ⟨0, 0⟩ (by decide) (by decide) (by decide)).2
      ⟨5, 1⟩ (by decide) (by decide) (by decide)).1 (Or.inl (by decide))⟩

/-- Claim C4: a heterozygous full-set call inside the allele region with
no filtered-set call at that position resolves to the reference allele,
never to the full set's alternate. -/
theorem claim_C4 (L : RefLocus) (fl : List (Nat × List Char × Dec))
    (s : List Char) (a : Nat) (r : VcfRow) (ab : List Char)
    (hreg : L.allele_start ≤ r.pos ∧ r.pos ≤ L.allele_stop)
    (hab : abSearch r.info = some ab)
    (hhet : ab.any (fun c => c = ',') = true
      ∨ ∃ q : Dec, pyFloat? ab = some q ∧ q.isZero = false)
    (hnone : filteredLookup fl r.pos = none) :
    vcfStep L fl (s, a) r = some (emitAt L s a r.pos r.ref r.ref)
    ∧ (r.ref ≠ r.alt →
        vcfStep L fl (s, a) r ≠ some (emitAt L s a r.pos r.ref r.alt)) := by
  have hstep : vcfStep L fl (s, a) r = some (emitAt L s a r.pos r.ref r.ref) := by
    rcases hhet with hc | ⟨q, hq, hz⟩
    · exact vcfStep_in L fl s a r ab r.ref hreg hab
        (resolveBase_comma_none fl r.pos ab r.ref r.alt hc hnone)
    · rcases hc : ab.any (fun c => c = ',') with hfalse | htrue
      · exact vcfStep_in L fl s a r ab r.ref hreg hab
          (resolveBase_het_none fl r.pos ab r.ref r.alt q hc hq hz hnone)
      · exact vcfStep_in L fl s a r ab r.ref hreg hab
          (resolveBase_comma_none fl r.pos ab r.ref r.alt hc hnone)
  refine ⟨hstep, fun hne heq => hne ?_⟩
  rw [hstep] at heq
  have hfst := congrArg (fun o => (o.getD ([], 0)).1) heq
  simp only [Option.getD_some, emitAt] at hfst
  exact List.append_cancel_left hfst

/-- Witness for C4: full reading `AB=0.5;` at a position absent from the
filtered set resolves to the reference allele. -/
theorem claim_C4_witness :
    abSearch ("AB=0.5;".toList) = some ("0.5".toList)
    ∧ filteredLookup [(4, ("C".toList, ⟨0, 0⟩))] 3 = none
    ∧ vcfStep testL [(4, ("C".toList, ⟨0, 0⟩))] ([], 0)
        ⟨3, "G".toList, "T".toList, "AB=0.5;".toList⟩ =
      some (emitAt testL [] 0 3 ("G".toList) ("G".toList)) :=
  ⟨by decide, by decide,
    (claim_C4 testL [(4, ("C".toList, ⟨0, 0⟩))] [] 0
        ⟨3, "G".toList, "T".toList, "AB=0.5;".toList⟩ ("0.5".toList)
        (by decide) (by decide)
        (Or.inr ⟨⟨5, 1⟩, by decide, by decide⟩) (by decide)).1⟩

/-- Well-formedness of the full set's rows, threaded along the running
anchor: every allele-region row sits at a genuine 1-based position, starts
at or after the running anchor (positions increasing, records not
overlapping), its alternate has the length of its reference-allele field,
every filtered-set alternate at the same position has that length too, and
the final anchor stays within the reference. Rows outside the allele
region are unconstrained, as the reconciler skips them. -/
def rowsOK (L : RefLocus) (fl : List (Nat × List Char × Dec)) :
    Nat → List VcfRow → Bool
  | a, [] => decide (a ≤ L.seq.length)
  | a, r :: rs =>
    if L.allele_start ≤ r.pos ∧ r.pos ≤ L.allele_stop then
      decide (1 ≤ r.pos) && decide (a ≤ r.pos - 1)
        && decide (r.alt.length = r.ref.length)
        && fl.all (fun e => decide (e.1 ≠ r.pos) || decide (e.2.1.length = r.ref.length))
        && rowsOK L fl (r.pos - 1 + r.ref.length) rs
    else rowsOK L fl a rs

lemma rowsOK_le (L : RefLocus) (fl : List (Nat × List Char × Dec)) :
    ∀ (rows : List VcfRow) (a : Nat), rowsOK L fl a rows = true → a ≤ L.seq.length := by
  intro rows
  induction rows with
  | nil => intro a h; simpa [rowsOK] using h
  | cons r rs ih =>
    intro a h
    by_cases hreg : L.allele_start ≤ r.pos ∧ r.pos ≤ L.allele_stop
    · simp only [rowsOK, if_pos hreg, Bool.and_eq_true, decide_eq_true_eq] at h
      obtain ⟨⟨⟨⟨h1, h2⟩, h3⟩, h4⟩, h5⟩ := h
      have := ih _ h5
      omega
    · simp only [rowsOK, if_neg hreg] at h
      exact ih _ h

lemma filteredLookup_mem (fl : List (Nat × List Char × Dec)) (p : Nat)
    (al : List Char) (b : Dec) (h : filteredLookup fl p = some (al, b)) :
    (p, al, b) ∈ fl := by
  induction fl with
  | nil => simp [filteredLookup] at h
  | cons e rest ih =>
    obtain ⟨q, x, y⟩ := e
    simp only [filteredLookup] at h
    cases hr : filteredLookup rest p with
    | some v =>
      simp only [hr, Option.some.injEq] at h
      subst h
      exact List.mem_cons_of_mem _ (ih hr)
    | none =>
      simp only [hr] at h
      split at h
      · next hqp =>
        injection h with h
        injection h with h1 h2
        subst hqp; subst h1; subst h2
        exact List.mem_cons_self _ _
      · exact absurd h (by simp)

lemma resolveBase_parse_fail (fl : List (Nat × List Char × Dec)) (pos : Nat)
    (ab refA alt : List Char)
    (hc : ab.any (fun c => c = ',') = false)
    (hq : pyFloat? ab = none) :
    resolveBase fl pos ab refA alt = none := by
  simp [resolveBase, hc, hq]

lemma resolveBase_length (fl : List (Nat × List Char × Dec)) (pos : Nat)
    (ab refA alt x : List Char)
    (halt : alt.length = refA.length)
    (hfl : ∀ e ∈ fl, e.1 = pos → e.2.1.length = refA.length)
    (h : resolveBase fl pos ab refA alt = some x) : x.length = refA.length := by
  cases hc : ab.any (fun c => c = ',') with
  | true =>
    cases hf : filteredLookup fl pos with
    | some v =>
      obtain ⟨falt, fab⟩ := v
      rw [resolveBase_comma_some fl pos ab refA alt falt fab hc hf] at h
      injection h with h
      subst h
      exact hfl _ (filteredLookup_mem fl pos falt fab hf) rfl
    | none =>
      rw [resolveBase_comma_none fl pos ab refA alt hc hf] at h
      injection h with h
      subst h
      rfl
  | false =>
    cases hq : pyFloat? ab with
    | none =>
      rw [resolveBase_parse_fail fl pos ab refA alt hc hq] at h
      exact absurd h (by simp)
    | some q =>
      cases hz : q.isZero with
      | true =>
        rw [resolveBase_hom fl pos ab refA alt q hc hq hz] at h
        injection h with h
        subst h
        exact halt
      | false =>
        cases hf : filteredLookup fl pos with
        | none =>
          rw [resolveBase_het_none fl pos ab refA alt q hc hq hz hf] at h
          injection h with h
          subst h
          rfl
        | some v =>
          obtain ⟨falt, fab⟩ := v
          cases hw1 : fab.isZero with
          | true =>
            rw [resolveBase_het_strong fl pos ab refA alt falt q fab hc hq hz hf
              (Or.inl hw1)] at h
            injection h with h
            subst h
            exact halt
          | false =>
            cases hw2 : fab.gt q with
            | true =>
              rw [resolveBase_het_strong fl pos ab refA alt falt q fab hc hq hz hf
                (Or.inr hw2)] at h
              injection h with h
              subst h
              exact halt
            | false =>
              rw [resolveBase_het_weak fl pos ab refA alt falt q fab hc hq hz hf
                hw1 hw2] at h
              injection h with h
              subst h
              rfl

/-- Core invariant of the reconciler's fold: under `rowsOK`, the emitted
text always has exactly the length of the running anchor — each emitted
span starts exactly where the previous one ended — and the final anchor
stays within the reference. -/
lemma vcfFold_inv (L : RefLocus) (fl : List (Nat × List Char × Dec)) :
    ∀ (rows : List VcfRow) (s : List Char) (a : Nat) (out : List Char × Nat),
      s.length = a → rowsOK L fl a rows = true →
      rows.foldlM (vcfStep L fl) (s, a) = some out →
      out.1.length = out.2 ∧ out.2 ≤ L.seq.length := by
  intro rows
  induction rows with
  | nil =>
    intro s a out hs hok hf
    simp only [List.foldlM_nil] at hf
    injection hf with hf
    subst hf
    simp only [rowsOK, decide_eq_true_eq] at hok
    exact ⟨hs, hok⟩
  | cons r rs ih =>
    intro s a out hs hok hf
    rw [List.foldlM_cons] at hf
    cases hstep : vcfStep L fl (s, a) r with
    | none => rw [hstep] at hf; exact absurd hf (by simp)
    | some st1 =>
      rw [hstep] at hf
      simp only [Option.bind_eq_bind, Option.some_bind] at hf
      by_cases hreg : L.allele_start ≤ r.pos ∧ r.pos ≤ L.allele_stop
      · simp only [rowsOK, if_pos hreg, Bool.and_eq_true, decide_eq_true_eq] at hok
        obtain ⟨⟨⟨⟨h1, h2⟩, h3⟩, h4⟩, h5⟩ := hok
        simp only [vcfStep, if_pos hreg] at hstep
        cases hab : abSearch r.info with
        | none => simp only [hab] at hstep; exact absurd hstep (by simp)
        | some ab =>
          simp only [hab] at hstep
          cases hres : resolveBase fl r.pos ab r.ref r.alt with
          | none => simp only [hres] at hstep; exact absurd hstep (by simp)
          | some x =>
            simp only [hres, Option.some.injEq] at hstep
            have hxlen : x.length = r.ref.length := by
              refine resolveBase_length fl r.pos ab r.ref r.alt x h3 ?_ hres
              intro e he hep
              have hall := List.all_eq_true.mp h4 e he
              simp only [Bool.or_eq_true, decide_eq_true_eq] at hall
              rcases hall with hne | hlen
              · exact absurd hep hne
              · exact hlen
            have hbound : r.pos - 1 + r.ref.length ≤ L.seq.length :=
              rowsOK_le L fl rs _ h5
            have hst1 : st1.1.length = st1.2 := by
              rw [← hstep]
              simp only [emitAt, List.length_append, pySlice,
                List.length_take, List.length_drop, hxlen]
              omega
            have hst2 : st1.2 = r.pos - 1 + r.ref.length := by
              rw [← hstep]
              rfl
            exact ih st1.1 st1.2 out hst1 (by rw [hst2]; exact h5)
              (by obtain ⟨st11, st12⟩ := st1; exact hf)
      · simp only [rowsOK, if_neg hreg] at hok
        simp only [vcfStep, if_neg hreg] at hstep
        injection hstep with hstep
        subst hstep
        exact ih s a out hs hok hf

set_option maxRecDepth 4000 in
/-- Counterexample to Claim C1 as stated: with an allele-region insertion
call (`alt` one base longer than `ref`, `AB=0;`), the pre-slicing output of
the reconciler on the real mompS reference is 988 bases long while the
reference has 987. -/
theorem claim_C1_counterexample :
    (vcf_to_fasta Ref [⟨367, "G".toList, "GT".toList, "AB=0;".toList⟩] []).map List.length
      = some 988
    ∧ Ref.seq.length = 987 := by
  constructor <;> decide

/-- Claim C1 (amended): when every allele-region full-set row sits at a
1-based position at or after the previous row's end (increasing,
non-overlapping), ends within the reference, and every emitted allele
(full alternate or filtered alternate) has the length of the row's
reference-allele field, then the pre-slicing output has exactly the
reference sequence's length; moreover the fold's emitted text always has
exactly the length of the running anchor (spans are contiguous and
non-overlapping). -/
theorem claim_C1_fixed (L : RefLocus) (full filt : List VcfRow)
    (fl : List (Nat × List Char × Dec)) (out : List Char)
    (hbf : buildFiltered filt = some fl)
    (hok : rowsOK L fl 0 full = true)
    (hrun : vcf_to_fasta L full filt = some out) :
    out.length = L.seq.length
    ∧ ∀ st, full.foldlM (vcfStep L fl) ([], 0) = some st → st.1.length = st.2 := by
  constructor
  · unfold vcf_to_fasta at hrun
    rw [hbf] at hrun
    simp only [Option.bind_eq_bind, Option.some_bind] at hrun
    cases hfd : full.foldlM (vcfStep L fl) ([], 0) with
    | none => rw [hfd] at hrun; exact absurd hrun (by simp)
    | some st =>
      rw [hfd] at hrun
      obtain ⟨hinv, hle⟩ := vcfFold_inv L fl full [] 0 st rfl hok hfd
      simp only [Option.bind_eq_bind, Option.some_bind, Option.pure_def] at hrun
      injection hrun with hrun
      rw [← hrun]
      simp only [List.length_append, List.length_drop, hinv]
      omega
  · intro st hst
    exact (vcfFold_inv L fl full [] 0 st rfl hok hst).1

/-- Witness for the amended C1: one well-formed substitution call on the
test locus; the output has the reference's length. -/
theorem claim_C1_fixed_witness :
    buildFiltered [] = some []
    ∧ rowsOK testL [] 0 [⟨3, "G".toList, "T".toList, "AB=0;".toList⟩] = true
    ∧ vcf_to_fasta testL [⟨3, "G".toList, "T".toList, "AB=0;".toList⟩] []
        = some ("ACTTACGT".toList)
    ∧ ("ACTTACGT".toList).length = testL.seq.length :=
  ⟨rfl, by decide, by decide,
    (claim_C1_fixed testL [⟨3, "G".toList, "T".toList, "AB=0;".toList⟩] [] []
      ("ACTTACGT".toList) rfl (by decide) (by decide)).1⟩

/-- First match of the regular expression `\d+M` in a CIGAR string
(`re.search(r"\d+M", cols[5])`): try each start position left to right; at
a digit, the greedy digit run must be directly followed by `M`. Returns the
numeric value of the run (`group()[:-1]`). -/
def cigarM : List Char → Option Nat
  | [] => none
  | c :: rest =>
    if c.isDigit then
      let run := rest.takeWhile Char.isDigit
      match rest.drop run.length with
      | 'M' :: _ => some (digitsToNat (c :: run))
      | _ => cigarM rest
    else cigarM rest

/-- One non-header alignment line of the SAM input, pre-split into the
fields `filter_sam_file` reads: `read_id = cols[0]`,
`pos = int(cols[3])`, `cigar = cols[5]`; `text` is the full line carried
verbatim (the source stores and re-emits the raw line). -/
structure SamRecord where
  read_id : List Char
  pos : Nat
  cigar : List Char
  text : List Char
deriving DecidableEq

/-- One input line: a header line (`startswith("@")`) or an alignment
record. -/
inductive SamLine where
  | header (t : List Char)
  | row (r : SamRecord)

/-- The loop state of `filter_sam_file`: `header_text` (as the list of
header lines), the insertion-ordered `all_reads` dictionary mapping a read
id to its concatenated record text, and the set of read ids `of interest`
(kept as an append list; only membership matters). -/
structure FilterState where
  headers : List (List Char)
  reads : List (List Char × List Char)
  interest : List (List Char)

/-- `all_reads[read_id] += line` / `all_reads[read_id] = line`: update the
first entry holding this key, else append a new entry (Python dicts keep
insertion order). -/
def updateReads : List (List Char × List Char) → List Char → List Char →
    List (List Char × List Char)
  | [], rid, t => [(rid, t)]
  | (k, v) :: rest, rid, t =>
    if k = rid then (k, v ++ t) :: rest else (k, v) :: updateReads rest rid t

/-- The outside-window test of `filter_sam_file`:
`read_start < region_start or read_start > region_end` with
`region_end = Ref.flank_stop - span` (computed over the integers, as in
Python). -/
def outsideWindow (L : RefLocus) (pos m : Nat) : Bool :=
  decide ((pos : Int) < (L.flank_start : Int))
    || decide ((pos : Int) > (L.flank_stop : Int) - (m : Int))

/-- One iteration of the `filter_sam_file` loop: header lines are
accumulated; for a record the `all_reads` entry is extended, then the CIGAR
match length is scraped — failure of the regular expression is a run-aborting
error — and the outside-window test marks the read id as of interest. -/
def filterStep (L : RefLocus) (st : FilterState) (line : SamLine) : Option FilterState :=
  match line with
  | .header t => some { st with headers := st.headers ++ [t] }
  | .row r =>
    let reads2 := updateReads st.reads r.read_id r.text
    match cigarM r.cigar with
    | none => none
    | some m =>
      if outsideWindow L r.pos m then
        some { headers := st.headers, reads := reads2
             , interest := st.interest ++ [r.read_id] }
      else
        some { headers := st.headers, reads := reads2, interest := st.interest }

/-- The read partitioner `filter_sam_file`: run the loop over all input
lines, then emit the header lines followed by the accumulated text of every
read whose id was marked of interest, in `all_reads` insertion order. -/
def filter_sam_file (L : RefLocus) (lines : List SamLine) :
    Option (List (List Char) × List (List Char)) := do
  let st ← lines.foldlM (filterStep L) ⟨[], [], []⟩
  pure (st.headers, (st.reads.filter (fun kv => decide (kv.1 ∈ st.interest))).map
    (fun kv => kv.2))

/-- The header lines of the input, in order. -/
def headerTexts : List SamLine → List (List Char)
  | [] => []
  | .header t :: rest => t :: headerTexts rest
  | .row _ :: rest => headerTexts rest

/-- The alignment records of the input, in order. -/
def samRecords : List SamLine → List SamRecord
  | [] => []
  | .header _ :: rest => samRecords rest
  | .row r :: rest => r :: samRecords rest

/-- Specification-side crossing test: a record is locus-crossing when its
start position lies outside `[flank_start, flank_stop - derivedSpan]`,
`derivedSpan` parsed from that record's own alignment descriptor. A record
whose descriptor does not parse counts as not crossing here; the
refinement theorem below assumes every descriptor parses. -/
def isCrossing (L : RefLocus) (r : SamRecord) : Bool :=
  match cigarM r.cigar with
  | none => false
  | some m => outsideWindow L r.pos m

/-- Read identifiers in order of first appearance. -/
def firstIds (recs : List SamRecord) : List (List Char) :=
  recs.foldl (fun acc r => if r.read_id ∈ acc then acc else acc ++ [r.read_id]) []

/-- The concatenated text of all records carrying a given read id, in input
order (both mates of a pair, or a single present mate). -/
def groupText (recs : List SamRecord) (rid : List Char) : List Char :=
  ((recs.filter (fun r => decide (r.read_id = rid))).map (fun r => r.text)).flatten

/-- Specification-side description of the Read Partitioner's output,
following the spec's words: the header lines unchanged, then, for each
read identifier in order of first appearance, the concatenated pair text
of exactly those identifiers having at least one mate whose start position
lies outside the flank window. -/
def readPartitionSpec (L : RefLocus) (lines : List SamLine) :
    List (List Char) × List (List Char) :=
  let recs := samRecords lines
  (headerTexts lines,
    ((firstIds recs).filter
      (fun rid => (recs.filter (fun r => decide (r.read_id = rid))).any (isCrossing L))).map
      (groupText recs))

/-- Total version of `filterStep`, valid once every CIGAR is known to
parse; `foldlM_filterStep_eq` relates the two. -/
def filterStepP (L : RefLocus) (st : FilterState) (line : SamLine) : FilterState :=
  match line with
  | .header t => { st with headers := st.headers ++ [t] }
  | .row r =>
    { headers := st.headers
    , reads := updateReads st.reads r.read_id r.text
    , interest := if isCrossing L r then st.interest ++ [r.read_id] else st.interest }

lemma foldlM_filterStep_eq (L : RefLocus) :
    ∀ (lines : List SamLine) (st : FilterState),
      (∀ r ∈ samRecords lines, (cigarM r.cigar).isSome) →
      lines.foldlM (filterStep L) st = some (lines.foldl (filterStepP L) st) := by
  intro lines
  induction lines with
  | nil => intro st h; rfl
  | cons l rest ih =>
    intro st h
    cases l with
    | header t =>
      rw [List.foldlM_cons, List.foldl_cons]
      simp only [filterStep, filterStepP, Option.bind_eq_bind, Option.some_bind]
      exact ih _ (fun r hr => h r hr)
    | row r =>
      have hr : (cigarM r.cigar).isSome := h r (List.mem_cons_self _ _)
      obtain ⟨m, hm⟩ := Option.isSome_iff_exists.mp hr
      rw [List.foldlM_cons, List.foldl_cons]
      have hstep : filterStep L st (SamLine.row r)
          = some (filterStepP L st (SamLine.row r)) := by
        simp only [filterStep, filterStepP, hm, isCrossing]
        cases hw : outsideWindow L r.pos m <;> simp [hw]
      rw [hstep]
      simp only [Option.bind_eq_bind, Option.some_bind]
      exact ih _ (fun r2 hr2 => h r2 (List.mem_cons_of_mem _ hr2))

lemma foldP_headers (L : RefLocus) :
    ∀ (lines : List SamLine) (st : FilterState),
      (lines.foldl (filterStepP L) st).headers = st.headers ++ headerTexts lines := by
  intro lines
  induction lines with
  | nil => intro st; simp [headerTexts]
  | cons l rest ih =>
    intro st
    cases l with
    | header t =>
      rw [List.foldl_cons, ih]
      simp [filterStepP, headerTexts, List.append_assoc]
    | row r =>
      rw [List.foldl_cons, ih]
      simp [filterStepP, headerTexts]

lemma foldP_reads (L : RefLocus) :
    ∀ (lines : List SamLine) (st : FilterState),
      (lines.foldl (filterStepP L) st).reads
        = (samRecords lines).foldl (fun rd r => updateReads rd r.read_id r.text) st.reads := by
  intro lines
  induction lines with
  | nil => intro st; simp [samRecords]
  | cons l rest ih =>
    intro st
    cases l with
    | header t => rw [List.foldl_cons, ih]; simp [filterStepP, samRecords]
    | row r => rw [List.foldl_cons, ih]; simp [filterStepP, samRecords]

lemma foldP_interest (L : RefLocus) :
    ∀ (lines : List SamLine) (st : FilterState),
      (lines.foldl (filterStepP L) st).interest
        = st.interest ++ ((samRecords lines).filter (isCrossing L)).map (fun r => r.read_id) := by
  intro lines
  induction lines with
  | nil => intro st; simp [samRecords]
  | cons l rest ih =>
    intro st
    cases l with
    | header t => rw [List.foldl_cons, ih]; simp [filterStepP, samRecords]
    | row r =>
      rw [List.foldl_cons, ih]
      cases hw : isCrossing L r <;>
        simp [filterStepP, samRecords, hw, List.filter_cons, List.append_assoc]

/-- The `all_reads` dictionary built from the records alone. -/
def readsAcc (recs : List SamRecord) : List (List Char × List Char) :=
  recs.foldl (fun rd r => updateReads rd r.read_id r.text) []

lemma mem_firstIds_fold :
    ∀ (recs : List SamRecord) (acc : List (List Char)) (x : List Char),
      x ∈ recs.foldl (fun a r => if r.read_id ∈ a then a else a ++ [r.read_id]) acc
        ↔ x ∈ acc ∨ ∃ r ∈ recs, r.read_id = x := by
  intro recs
  induction recs with
  | nil => intro acc x; simp
  | cons r rs ih =>
    intro acc x
    rw [List.foldl_cons, ih]
    by_cases hmem : r.read_id ∈ acc
    · simp only [if_pos hmem, List.mem_cons]
      constructor
      · rintro (h | ⟨r2, h2, h3⟩)
        · exact Or.inl h
        · exact Or.inr ⟨r2, Or.inr h2, h3⟩
      · rintro (h | ⟨r2, h2 | h2, h3⟩)
        · exact Or.inl h
        · subst h2; exact Or.inl (h3 ▸ hmem)
        · exact Or.inr ⟨r2, h2, h3⟩
    · rw [if_neg hmem]
      constructor
      · rintro (h | ⟨r2, h2, h3⟩)
        · rcases List.mem_append.mp h with h | h
          · exact Or.inl h
          · exact Or.inr ⟨r, List.mem_cons_self _ _, (List.mem_singleton.mp h).symm⟩
        · exact Or.inr ⟨r2, List.mem_cons_of_mem _ h2, h3⟩
      · rintro (h | ⟨r2, h2, h3⟩)
        · exact Or.inl (List.mem_append.mpr (Or.inl h))
        · rcases List.mem_cons.mp h2 with he | hm
          · subst he
            exact Or.inl (List.mem_append.mpr (Or.inr (List.mem_singleton.mpr h3.symm)))
          · exact Or.inr ⟨r2, hm, h3⟩

lemma mem_firstIds (recs : List SamRecord) (x : List Char) :
    x ∈ firstIds recs ↔ ∃ r ∈ recs, r.read_id = x := by
  rw [firstIds, mem_firstIds_fold]
  simp

lemma firstIds_nodup_fold :
    ∀ (recs : List SamRecord) (acc : List (List Char)), acc.Nodup →
      (recs.foldl (fun a r => if r.read_id ∈ a then a else a ++ [r.read_id]) acc).Nodup := by
  intro recs
  induction recs with
  | nil => intro acc h; simpa using h
  | cons r rs ih =>
    intro acc h
    rw [List.foldl_cons]
    by_cases hmem : r.read_id ∈ acc
    · rw [if_pos hmem]; exact ih acc h
    · rw [if_neg hmem]
      exact ih _ (by simp [List.nodup_append, h, hmem])

lemma firstIds_nodup (recs : List SamRecord) : (firstIds recs).Nodup :=
  firstIds_nodup_fold recs [] List.nodup_nil

lemma readsAcc_append (recs : List SamRecord) (r : SamRecord) :
    readsAcc (recs ++ [r]) = updateReads (readsAcc recs) r.read_id r.text := by
  simp [readsAcc, List.foldl_append]

lemma firstIds_append (recs : List SamRecord) (r : SamRecord) :
    firstIds (recs ++ [r])
      = if r.read_id ∈ firstIds recs then firstIds recs
        else firstIds recs ++ [r.read_id] := by
  simp [firstIds, List.foldl_append]

lemma groupText_append (recs : List SamRecord) (r : SamRecord) (rid : List Char) :
    groupText (recs ++ [r]) rid
      = groupText recs rid ++ (if r.read_id = rid then r.text else []) := by
  by_cases h : r.read_id = rid <;>
    simp [groupText, List.filter_append, List.flatten_append, h]

lemma groupText_eq_nil (recs : List SamRecord) (rid : List Char)
    (h : ∀ r ∈ recs, r.read_id ≠ rid) : groupText recs rid = [] := by
  have hfil : recs.filter (fun r => decide (r.read_id = rid)) = [] :=
    List.filter_eq_nil_iff.mpr (by intro a ha; simpa using h a ha)
  simp [groupText, hfil]

lemma updateReads_map (ids : List (List Char)) (g : List Char → List Char)
    (rid t : List Char) (hnd : ids.Nodup) :
    updateReads (ids.map (fun i => (i, g i))) rid t =
      if rid ∈ ids then
        ids.map (fun i => (i, if i = rid then g i ++ t else g i))
      else ids.map (fun i => (i, g i)) ++ [(rid, t)] := by
  induction ids with
  | nil => simp [updateReads]
  | cons i ids ih =>
    rw [List.map_cons]
    by_cases hir : i = rid
    · subst hir
      rw [updateReads, if_pos rfl, if_pos (List.mem_cons_self _ _)]
      rw [List.map_cons, if_pos rfl]
      have hni : i ∉ ids := (List.nodup_cons.mp hnd).1
      have : (ids.map (fun j => (j, if j = i then g j ++ t else g j)))
          = ids.map (fun j => (j, g j)) := by
        apply List.map_congr_left
        intro j hj
        have hji : j ≠ i := fun he => hni (he ▸ hj)
        simp [hji]
      rw [this]
    · rw [updateReads, if_neg hir, ih (List.nodup_cons.mp hnd).2]
      by_cases hmem : rid ∈ ids
      · rw [if_pos hmem, if_pos (List.mem_cons_of_mem _ hmem)]
        rw [List.map_cons, if_neg hir]
      · rw [if_neg hmem,
          if_neg (by
            simp only [List.mem_cons]
            rintro (h | h)
            exacts [hir h.symm, hmem h])]
        simp

lemma readsAcc_eq (recs : List SamRecord) :
    readsAcc recs = (firstIds recs).map (fun rid => (rid, groupText recs rid)) := by
  induction recs using List.reverseRecOn with
  | nil => rfl
  | append_singleton recs r ih =>
    rw [readsAcc_append, ih, updateReads_map _ _ _ _ (firstIds_nodup recs)]
    by_cases hmem : r.read_id ∈ firstIds recs
    · rw [if_pos hmem, firstIds_append, if_pos hmem]
      apply List.map_congr_left
      intro i hi
      rw [groupText_append]
      by_cases hir : i = r.read_id
      · subst hir; simp
      · have hri : r.read_id ≠ i := fun h => hir h.symm
        simp [hir, hri]
    · rw [if_neg hmem, firstIds_append, if_neg hmem, List.map_append]
      congr 1
      · apply List.map_congr_left
        intro i hi
        rw [groupText_append]
        have hri : r.read_id ≠ i := fun h => hmem (h ▸ hi)
        simp [hri]
      · rw [List.map_singleton, groupText_append, if_pos rfl]
        have h0 : groupText recs r.read_id = [] := by
          apply groupText_eq_nil
          intro r2 hr2 he
          exact hmem ((mem_firstIds recs r.read_id).mpr ⟨r2, hr2, he⟩)
        simp [h0]

/-- Claim C5: on a properly-paired record set whose alignment descriptors
all parse, the Read Partitioner's output is exactly the spec's description:
the header lines unchanged, followed by the concatenated text of exactly
those read identifiers (in order of first appearance) having at least one
mate whose start position lies outside
`[flank_start, flank_stop - derivedSpan]` — both mates kept together, a
single present mate sufficing. -/
theorem claim_C5 (L : RefLocus) (lines : List SamLine)
    (hok : ∀ r ∈ samRecords lines, (cigarM r.cigar).isSome) :
    filter_sam_file L lines = some (readPartitionSpec L lines) := by
  unfold filter_sam_file
  rw [foldlM_filterStep_eq L lines ⟨[], [], []⟩ hok]
  simp only [Option.bind_eq_bind, Option.some_bind, Option.pure_def]
  refine congrArg some ?_
  unfold readPartitionSpec
  refine Prod.ext ?_ ?_
  · rw [foldP_headers]
    rfl
  · show ((lines.foldl (filterStepP L) ⟨[], [], []⟩).reads.filter _).map _ = _
    rw [foldP_reads, foldP_interest]
    show ((readsAcc (samRecords lines)).filter _).map _ = _
    rw [readsAcc_eq]
    rw [List.filter_map, List.map_map]
    simp only [List.nil_append, Function.comp]
    refine congrArg _ ?_
    apply List.filter_congr
    intro rid _
    refine Bool.eq_iff_iff.mpr ?_
    simp only [Function.comp_apply, decide_eq_true_eq, List.any_eq_true, List.mem_map,
      List.mem_filter, Bool.and_eq_true]
    constructor
    · rintro ⟨r, ⟨hr, hc⟩, hid⟩
      exact ⟨r, ⟨hr, hid⟩, hc⟩
    · rintro ⟨r, ⟨hr, hid⟩, hc⟩
      exact ⟨r, ⟨hr, hc⟩, hid⟩

/-- Witness for C5: a pair `a` with one mate left of the flank window, a
lone read `b` inside it; only pair `a` is emitted, its two mates glued. -/
theorem claim_C5_witness :
    (∀ r ∈ samRecords
        [SamLine.header ("@h".toList),
         SamLine.row ⟨"a".toList, 0, "3M".toList, "t1".toList⟩,
         SamLine.row ⟨"a".toList, 3, "3M".toList, "t2".toList⟩,
         SamLine.row ⟨"b".toList, 4, "3M".toList, "t3".toList⟩],
      (cigarM r.cigar).isSome)
    ∧ filter_sam_file testL
        [SamLine.header ("@h".toList),
         SamLine.row ⟨"a".toList, 0, "3M".toList, "t1".toList⟩,
         SamLine.row ⟨"a".toList, 3, "3M".toList, "t2".toList⟩,
         SamLine.row ⟨"b".toList, 4, "3M".toList, "t3".toList⟩]
      = some (["@h".toList], ["t1t2".toList]) :=
  ⟨by decide,
    (claim_C5 testL
      [SamLine.header ("@h".toList),
       SamLine.row ⟨"a".toList, 0, "3M".toList, "t1".toList⟩,
       SamLine.row ⟨"a".toList, 3, "3M".toList, "t2".toList⟩,
       SamLine.row ⟨"b".toList, 4, "3M".toList, "t3".toList⟩] (by decide)).trans
      (by decide)⟩

lemma foldlM_none {α β : Type} (step : β → α → Option β) :
    ∀ (l : List α) (x : α), x ∈ l → (∀ s, step s x = none) →
      ∀ s0, l.foldlM step s0 = none := by
  intro l
  induction l with
  | nil => intro x hx; exact absurd hx (List.not_mem_nil x)
  | cons y ys ih =>
    intro x hx hfail s0
    rw [List.foldlM_cons]
    rcases List.mem_cons.mp hx with he | hm
    · subst he
      rw [hfail s0]
      rfl
    · cases hy : step s0 y with
      | none => rfl
      | some s1 =>
        simp only [Option.bind_eq_bind, Option.some_bind]
        exact ih x hm hfail s1

lemma mem_samRecords (r : SamRecord) :
    ∀ lines : List SamLine, r ∈ samRecords lines → SamLine.row r ∈ lines := by
  intro lines
  induction lines with
  | nil => intro h; exact absurd h (List.not_mem_nil r)
  | cons l rest ih =>
    intro h
    cases l with
    | header t => exact List.mem_cons_of_mem _ (ih h)
    | row r2 =>
      rcases List.mem_cons.mp h with he | hm
      · subst he; exact List.mem_cons_self _ _
      · exact List.mem_cons_of_mem _ (ih hm)

lemma parseFiltRow_none (r : VcfRow)
    (hfail : abSearch r.info = none
      ∨ ∃ ab, abSearch r.info = some ab ∧ ab.any (fun c => c = ',') = false
          ∧ pyFloat? ab = none) :
    parseFiltRow r = none := by
  rcases hfail with h | ⟨ab, h1, h2, h3⟩
  · simp [parseFiltRow, h]
  · simp [parseFiltRow, h1, h3]

lemma buildFiltered_none (r : VcfRow) :
    ∀ rows : List VcfRow, r ∈ rows → parseFiltRow r = none →
      buildFiltered rows = none := by
  intro rows
  induction rows with
  | nil => intro h; exact absurd h (List.not_mem_nil r)
  | cons y ys ih =>
    intro h hp
    rcases List.mem_cons.mp h with he | hm
    · subst he
      simp [buildFiltered, hp]
    · cases hy : parseFiltRow y with
      | none => simp [buildFiltered, hy]
      | some e => simp [buildFiltered, hy, ih hm hp]

lemma vcfStep_fail (L : RefLocus) (fl : List (Nat × List Char × Dec)) (r : VcfRow)
    (hreg : L.allele_start ≤ r.pos ∧ r.pos ≤ L.allele_stop)
    (hfail : abSearch r.info = none
      ∨ ∃ ab, abSearch r.info = some ab ∧ ab.any (fun c => c = ',') = false
          ∧ pyFloat? ab = none) :
    ∀ st, vcfStep L fl st r = none := by
  rintro ⟨s, a⟩
  rcases hfail with h | ⟨ab, h1, h2, h3⟩
  · simp [vcfStep, hreg, h]
  · simp [vcfStep, hreg, h1, resolveBase_parse_fail fl r.pos ab r.ref r.alt h2 h3]

set_option maxRecDepth 4000 in
/-- Counterexample to Claim C8 as stated: a full-set variant row *outside*
the allele region whose info field has no parseable allele-balance at all
is silently skipped — the reconciler completes and returns the reference
sequence instead of failing. -/
theorem claim_C8_counterexample :
    abSearch ("DP=10".toList) = none
    ∧ vcf_to_fasta Ref [⟨1, "G".toList, "T".toList, "DP=10".toList⟩] []
        = some Ref.seq := by
  constructor
  · decide
  · rfl

/-- Claim C8 (amended): a malformed field in a record the pipeline actually
examines aborts the run: an alignment record with no parseable
match-length token anywhere in the input; a full-set variant row *inside
the allele region* whose allele-balance reading is missing, or single-valued
yet not parseable as a number; and any filtered-set row with such a
reading. (Full-set rows outside the allele region are skipped unexamined —
the correction the counterexample forces.) -/
theorem claim_C8_fixed :
    (∀ (L : RefLocus) (lines : List SamLine) (r : SamRecord),
      r ∈ samRecords lines → cigarM r.cigar = none →
      filter_sam_file L lines = none)
    ∧ (∀ (L : RefLocus) (full filt : List VcfRow) (r : VcfRow),
        r ∈ full → L.allele_start ≤ r.pos ∧ r.pos ≤ L.allele_stop →
        (abSearch r.info = none
          ∨ ∃ ab, abSearch r.info = some ab ∧ ab.any (fun c => c = ',') = false
              ∧ pyFloat? ab = none) →
        vcf_to_fasta L full filt = none)
    ∧ (∀ (L : RefLocus) (full filt : List VcfRow) (r : VcfRow),
        r ∈ filt →
        (abSearch r.info = none
          ∨ ∃ ab, abSearch r.info = some ab ∧ ab.any (fun c => c = ',') = false
              ∧ pyFloat? ab = none) →
        vcf_to_fasta L full filt = none) := by
  refine ⟨?_, ?_, ?_⟩
  · intro L lines r hmem hcig
    have hfail : ∀ st, filterStep L st (SamLine.row r) = none := by
      intro st
      simp [filterStep, hcig]
    unfold filter_sam_file
    rw [foldlM_none (filterStep L) lines (SamLine.row r)
      (mem_samRecords r lines hmem) hfail ⟨[], [], []⟩]
    rfl
  · intro L full filt r hmem hreg hfail
    unfold vcf_to_fasta
    cases hbf : buildFiltered filt with
    | none => rfl
    | some fl =>
      simp only [Option.bind_eq_bind, Option.some_bind]
      rw [foldlM_none (vcfStep L fl) full r hmem
        (vcfStep_fail L fl r hreg hfail) ([], 0)]
      rfl
  · intro L full filt r hmem hfail
    unfold vcf_to_fasta
    rw [buildFiltered_none r filt hmem (parseFiltRow_none r hfail)]
    rfl

/-- Witness for the amended C8: a record with CIGAR `*` aborts the
partitioner; a full row in the allele region with AB reading `..` aborts
the reconciler; a filtered row with no AB aborts the reconciler. -/
theorem claim_C8_fixed_witness :
    filter_sam_file testL [SamLine.row ⟨"a".toList, 2, "*".toList, "t".toList⟩] = none
    ∧ vcf_to_fasta testL [⟨3, "G".toList, "T".toList, "AB=..;".toList⟩] [] = none
    ∧ vcf_to_fasta testL [] [⟨3, "G".toList, "T".toList, "DP=10".toList⟩] = none :=
  ⟨claim_C8_fixed.1 testL [SamLine.row ⟨"a".toList, 2, "*".toList, "t".toList⟩]
      ⟨"a".toList, 2, "*".toList, "t".toList⟩ (by decide) (by decide),
    claim_C8_fixed.2.1 testL [⟨3, "G".toList, "T".toList, "AB=..;".toList⟩] []
      ⟨3, "G".toList, "T".toList, "AB=..;".toList⟩ (by decide) (by decide)
      (Or.inr ⟨"..".toList, by decide, by decide, by decide⟩),
    claim_C8_fixed.2.2 testL [] [⟨3, "G".toList, "T".toList, "DP=10".toList⟩]
      ⟨3, "G".toList, "T".toList, "DP=10".toList⟩ (by decide)
      (Or.inl (by decide))⟩

/-- The whitespace set of Python's `str.rstrip()`. -/
def pyIsSpace (c : Char) : Bool :=
  c = ' ' || c = '\t' || c = '\n' || c = '\r' || c = '\x0b' || c = '\x0c'

/-- Python `line.rstrip()`. -/
def pyRstrip (s : String) : String := ⟨(s.data.reverse.dropWhile pyIsSpace).reverse⟩

/-- Python `s.endswith(t)`. -/
def pyEndsWith (s t : String) : Bool := t.data.isSuffixOf s.data

/-- Python `line.split("\t")[0]`: the text before the first tab (`split`
always yields at least one field). -/
def firstTabField (s : String) : String := ⟨s.data.takeWhile (fun c => c ≠ '\t')⟩

/-- Helper of `splitTab`, carrying the current field reversed. -/
def splitTabAux : List Char → List Char → List String
  | [], acc => [⟨acc.reverse⟩]
  | c :: rest, acc =>
    if c = '\t' then ⟨acc.reverse⟩ :: splitTabAux rest []
    else splitTabAux rest (c :: acc)

/-- Python `line.split("\t")`. -/
def splitTab (s : String) : List String := splitTabAux s.data []

/-- The scan of `get_st` over the data lines (the header was consumed by
`readline`): the first line that, once right-stripped, ends with the query
profile yields its first tab field; no match yields the fallback `"-"`. -/
def get_st_scan (allele_profile : String) : List String → String
  | [] => "-"
  | line :: rest =>
    let l := pyRstrip line
    if pyEndsWith l allele_profile then firstTabField l
    else get_st_scan allele_profile rest

/-- The Profile Resolver `get_st`: `f.readline()` skips the header line,
then the remaining lines are scanned. -/
def get_st (allele_profile : String) (profile_lines : List String) : String :=
  match profile_lines with
  | [] => "-"
  | _ :: rest => get_st_scan allele_profile rest

/-- Claim C6: the Profile Resolver returns the first column of the first
non-header line that (right-stripped) ends with the tab-joined
allele-profile query exactly, and the fallback `"-"` when no line does;
in particular the documented 7-locus example resolves to ST `"7"`. -/
theorem claim_C6 :
    (∀ (q hd : String) (rest : List String),
      get_st q (hd :: rest)
        = match rest.find? (fun l => pyEndsWith (pyRstrip l) q) with
          | some l => firstTabField (pyRstrip l)
          | none => "-")
    ∧ get_st ("flaA1\tpilE2\tasd1\tmip1\tmompS3\tproA1\tneuA1")
        [("ST\tflaA\tpilE\tasd\tmip\tmompS\tproA\tneuA"),
         ("7\tflaA1\tpilE2\tasd1\tmip1\tmompS3\tproA1\tneuA1")] = ("7")
    ∧ get_st ("flaA9\tpilE2\tasd1\tmip1\tmompS3\tproA1\tneuA1")
        [("ST\tflaA\tpilE\tasd\tmip\tmompS\tproA\tneuA"),
         ("7\tflaA1\tpilE2\tasd1\tmip1\tmompS3\tproA1\tneuA1")] = ("-") := by
  refine ⟨?_, by decide, by decide⟩
  intro q hd rest
  show get_st_scan q rest = _
  induction rest with
  | nil => rfl
  | cons l ls ih =>
    cases hl : pyEndsWith (pyRstrip l) q with
    | true => simp [get_st_scan, hl, List.find?_cons, ih]
    | false => simp [get_st_scan, hl, List.find?_cons, ih]

/-- Claim C10: a query tuple whose per-locus fields differ from every data
row can still resolve to that row's ST, because matching is a raw text
suffix test: table allele `11` accepts query allele `1` with no field
boundary check. -/
theorem claim_C10 :
    ∃ (tbl : List String) (q st : String),
      get_st q tbl = st ∧ st ≠ ("-")
      ∧ ∀ row ∈ tbl.tail, (splitTab (pyRstrip row)).tail ≠ splitTab q :=
  ⟨[("ST\tflaA\tpilE\tasd\tmip\tmompS\tproA\tneuA"),
    ("5\t11\t2\t3\t4\t5\t6\t7")], ("1\t2\t3\t4\t5\t6\t7"), ("5"),
    by decide, by decide, by decide⟩

/-- Python `allele.replace("mompS_", "")`: remove every occurrence of the
literal `mompS_`, scanning left to right. -/
def stripMompS : List Char → List Char
  | 'm' :: 'o' :: 'm' :: 'p' :: 'S' :: '_' :: rest => stripMompS rest
  | c :: rest => c :: stripMompS rest
  | [] => []

/-- Python dict-key insertion-order deduplication
(`alleles[x] = 1` in a loop, then `list(alleles.keys())`). -/
def pyDictKeys (l : List (List Char)) : List (List Char) :=
  l.foldl (fun acc k => if k ∈ acc then acc else acc ++ [k]) []

/-- Decision logic of `call_momps_pcr` (lines 576-602 of the source):
`hitAlleles` are the second columns of the similarity-search hit lines;
`primer1_res` is the raw output of the first in-silico PCR run;
`nested_allele` is the allele the nested-primer plus final-search path
would produce (that path only invokes external tools, so its result is a
parameter). `headD` stands for `alleles[0]`, taken only when the list has
exactly one element. -/
def call_momps_pcr (hitAlleles : List (List Char))
    (primer1_res nested_allele : List Char) : List Char :=
  let alleles := pyDictKeys (hitAlleles.map stripMompS)
  if alleles.length = 1 then alleles.headD []
  else if primer1_res ≠ [] then nested_allele
  else ("-").toList

/-- Claim C7: with exactly one distinct hit allele, assembly-mode
identification returns it whatever the primer results are (primer
disambiguation does not enter); with two or more distinct hit alleles and
an empty first-primer product, it returns the not-found marker `"-"`. -/
theorem claim_C7 :
    (∀ (hits : List (List Char)) (p1 nested a : List Char),
      pyDictKeys (hits.map stripMompS) = [a] →
      call_momps_pcr hits p1 nested = a)
    ∧ (∀ (hits : List (List Char)) (nested : List Char),
        2 ≤ (pyDictKeys (hits.map stripMompS)).length →
        call_momps_pcr hits [] nested = ("-").toList) := by
  constructor
  · intro hits p1 nested a h
    simp [call_momps_pcr, h]
  · intro hits nested h
    have h1 : (pyDictKeys (hits.map stripMompS)).length ≠ 1 := by omega
    simp [call_momps_pcr, h1]

/-- Witness for C7: a single hit `mompS_3` yields allele `3` with primer
results present but unused; two distinct hits and an empty first-primer
product yield `-`. -/
theorem claim_C7_witness :
    pyDictKeys (["mompS_3".toList].map stripMompS) = ["3".toList]
    ∧ call_momps_pcr ["mompS_3".toList] ("x".toList) ("9".toList) = ("3").toList
    ∧ 2 ≤ (pyDictKeys (["mompS_1".toList, "mompS_2".toList].map stripMompS)).length
    ∧ call_momps_pcr ["mompS_1".toList, "mompS_2".toList] [] ("9".toList) = ("-").toList :=
  ⟨by decide,
    claim_C7.1 ["mompS_3".toList] ("x".toList) ("9".toList) ("3".toList) (by decide),
    by decide,
    claim_C7.2 ["mompS_1".toList, "mompS_2".toList] ("9".toList) (by decide)⟩

